import Mathlib

/-!
Verification of the blinkit scraping scripts (`blinkit_scrap.py`,
`extract_pids.py`).  The pure data-transformation core of the scripts is
shallowly embedded: Python values flowing through the embedded-state
normalizer are modelled by `JValue`, Python `dict.get` / truthiness /
`or` / exception semantics are modelled explicitly, and the stateful
scroll loop is modelled as a step function over measured-height streams.
-/

namespace Cravehy

/-! ## Generic list/string helpers (Python string primitives) -/

/-- `needle` is a prefix of `hay` (used for `str.startswith` and substring
search). -/
def startsWithL (needle hay : List Char) : Bool :=
  match needle, hay with
  | [], _ => true
  | _ :: _, [] => false
  | n :: ns, h :: hs => n == h && startsWithL ns hs

/-- Python `needle in hay` substring containment. -/
def containsSub (hay needle : List Char) : Bool :=
  match hay with
  | [] => startsWithL needle []
  | _ :: hs => startsWithL needle hay || containsSub hs needle

/-- Python `hay.replace(needle, '')` — remove every (non-overlapping,
left-to-right) occurrence of `needle`.  Fuel-based so that it reduces in
the kernel; `fuel = hay.length` always suffices. -/
def removeAllAux (needle : List Char) : Nat → List Char → List Char
  | 0, _ => []
  | _, [] => []
  | fuel + 1, c :: cs =>
    if needle ≠ [] && startsWithL needle (c :: cs) then
      removeAllAux needle fuel (List.drop (needle.length - 1) cs)
    else
      c :: removeAllAux needle fuel cs

def removeAll (needle hay : List Char) : List Char :=
  removeAllAux needle hay.length hay

/-- The whitespace characters stripped by Python `str.strip()`. -/
def pySpace (c : Char) : Bool :=
  c == ' ' || c == '\t' || c == '\n' || c == '\r' || c == '\x0b' || c == '\x0c'

/-- Python `str.strip()` on a character list. -/
def pyStripL (cs : List Char) : List Char :=
  ((cs.dropWhile pySpace).reverse.dropWhile pySpace).reverse

/-- Python `str.strip()`. -/
def pyStrip (s : String) : String :=
  String.mk (pyStripL s.toList)

/-- Python `s.split(sep)` for a one-character separator: splits at every
occurrence, keeping empty pieces; the result is never empty. -/
def splitCh (sep : Char) : List Char → List (List Char)
  | [] => [[]]
  | c :: cs =>
    let rest := splitCh sep cs
    if c == sep then
      [] :: rest
    else
      match rest with
      | h :: t => (c :: h) :: t
      | [] => [[c]]

/-- Python `s.split(sep, 1)` for a one-character separator: `none` when
the separator does not occur (`sep in s` is false), otherwise the pieces
before and after the first occurrence. -/
def splitFirst (sep : Char) : List Char → Option (List Char × List Char)
  | [] => none
  | c :: cs =>
    if c == sep then
      some ([], cs)
    else
      match splitFirst sep cs with
      | some (a, b) => some (c :: a, b)
      | none => none

/-- `sep.join pieces` (used to stringify a parsed nutrition mapping). -/
def joinSep (sep : List Char) : List (List Char) → List Char
  | [] => []
  | [p] => p
  | p :: ps => p ++ sep ++ joinSep sep ps

/-- Python-dict insertion on an association list: an existing key keeps
its position and receives the new value, a new key is appended. -/
def dictInsert {α : Type} (d : List (String × α)) (k : String) (v : α) :
    List (String × α) :=
  match d with
  | [] => [(k, v)]
  | (k', v') :: rest =>
    if k' = k then (k, v) :: rest else (k', v') :: dictInsert rest k v

/-! ## Python JSON values -/

/-- A Python value as produced by `json.loads`: `None`, booleans,
(integer) numbers, strings, lists and dicts.  Dicts are association
lists with unique keys in insertion order. -/
inductive JValue where
  | jnull : JValue
  | jbool : Bool → JValue
  | jnum : Int → JValue
  | jstr : String → JValue
  | jarr : List JValue → JValue
  | jobj : List (String × JValue) → JValue
deriving Repr

/-- Python `x == s` for a string literal `s`: values of other types are
simply unequal (no exception). -/
def jEqStr (x : JValue) (s : String) : Bool :=
  match x with
  | .jstr t => t = s
  | _ => false

/-- Python truthiness: `None`, `False`, `0`, `''`, `[]`, `{}` are falsy. -/
def truthy : JValue → Bool
  | .jnull => false
  | .jbool b => b
  | .jnum n => n != 0
  | .jstr s => s ≠ ""
  | .jarr xs => !xs.isEmpty
  | .jobj fs => !fs.isEmpty

/-- Python `a or b`. -/
def pyOr (a b : JValue) : JValue :=
  if truthy a then a else b

/-- Dict lookup with default (`fields` has unique keys, so the first
match is the binding). -/
def jGetD (fs : List (String × JValue)) (k : String) (d : JValue) : JValue :=
  match fs with
  | [] => d
  | (k', v) :: rest => if k' = k then v else jGetD rest k d

/-- Python `x.get(k, d)` — raises (`AttributeError`) when `x` is not a
dict. -/
def pyGet (x : JValue) (k : String) (d : JValue) : Except Unit JValue :=
  match x with
  | .jobj fs => .ok (jGetD fs k d)
  | _ => .error ()

/-- Python `for v in x`: lists yield their elements, dicts their keys,
strings their characters; anything else raises (`TypeError`). -/
def pyIterList : JValue → Except Unit (List JValue)
  | .jarr xs => .ok xs
  | .jobj fs => .ok (fs.map fun p => .jstr p.1)
  | .jstr s => .ok (s.toList.map fun c => .jstr (String.mk [c]))
  | _ => .error ()

/-- Python `x[0]` in contexts where the result is immediately used as a
dict (any non-list, and the empty list, end in an exception). -/
def pyIndex0 : JValue → Except Unit JValue
  | .jarr (x :: _) => .ok x
  | _ => .error ()

/-! ## A model of `json.loads`

A total recursive-descent JSON parser producing `JValue`.  Numbers are
modelled as integers (the payloads the claims quantify over contain no
floats); duplicate object keys follow Python semantics (first-insertion
position, last value).  Fuel-based so that closed inputs evaluate in the
kernel; `fuel = input length + 1` always suffices because every
recursive call consumes at least one character. -/

def skipWsL : List Char → List Char
  | [] => []
  | c :: cs =>
    if c == ' ' || c == '\t' || c == '\n' || c == '\r' then skipWsL cs
    else c :: cs

def hexVal (c : Char) : Option Nat :=
  if '0' ≤ c ∧ c ≤ '9' then some (c.toNat - 48)
  else if 'a' ≤ c ∧ c ≤ 'f' then some (c.toNat - 87)
  else if 'A' ≤ c ∧ c ≤ 'F' then some (c.toNat - 55)
  else none

def parseHex4 : List Char → Option (Nat × List Char)
  | a :: b :: c :: d :: rest =>
    match hexVal a, hexVal b, hexVal c, hexVal d with
    | some va, some vb, some vc, some vd =>
      some (va * 4096 + vb * 256 + vc * 16 + vd, rest)
    | _, _, _, _ => none
  | _ => none

def escChar (e : Char) : Option Char :=
  if e == '"' then some '"'
  else if e == '\\' then some '\\'
  else if e == '/' then some '/'
  else if e == 'n' then some '\n'
  else if e == 't' then some '\t'
  else if e == 'r' then some '\r'
  else if e == 'b' then some '\x08'
  else if e == 'f' then some '\x0c'
  else none

/-- Body of a JSON string literal, after the opening quote; returns the
decoded characters and the remainder after the closing quote. -/
def parseStrBody : Nat → List Char → Option (List Char × List Char)
  | 0, _ => none
  | fuel + 1, cs =>
    match cs with
    | [] => none
    | '"' :: rest => some ([], rest)
    | '\\' :: rest =>
      match rest with
      | 'u' :: r2 =>
        match parseHex4 r2 with
        | some (n, r3) =>
          match parseStrBody fuel r3 with
          | some (body, r4) => some (Char.ofNat n :: body, r4)
          | none => none
        | none => none
      | e :: r2 =>
        match escChar e with
        | some c =>
          match parseStrBody fuel r2 with
          | some (body, r3) => some (c :: body, r3)
          | none => none
        | none => none
      | [] => none
    | c :: rest =>
      if c.toNat < 32 then none
      else
        match parseStrBody fuel rest with
        | some (body, r2) => some (c :: body, r2)
        | none => none

def digitsVal (ds : List Char) : Nat :=
  ds.foldl (fun a c => a * 10 + (c.toNat - 48)) 0

def parseNum (cs : List Char) : Option (JValue × List Char) :=
  let p := match cs with
    | '-' :: rest => (true, rest)
    | _ => (false, cs)
  let ds := p.2.takeWhile Char.isDigit
  let rest := p.2.dropWhile Char.isDigit
  if ds.isEmpty then none
  else if ds.length > 1 && ds.headD '0' == '0' then none
  else
    match rest with
    | '.' :: _ => none
    | 'e' :: _ => none
    | 'E' :: _ => none
    | _ =>
      let v : Int := Int.ofNat (digitsVal ds)
      some (.jnum (if p.1 then -v else v), rest)

def lookupFirst (fs : List (String × JValue)) (k : String) : Option JValue :=
  match fs with
  | [] => none
  | (k', v) :: rest => if k' = k then some v else lookupFirst rest k

def eraseKeyFirst (fs : List (String × JValue)) (k : String) :
    List (String × JValue) :=
  match fs with
  | [] => []
  | (k', v) :: rest => if k' = k then rest else (k', v) :: eraseKeyFirst rest k

/-- Python dict semantics for a key seen before the pairs `fs`: the key
keeps its earliest position and the latest value. -/
def objCombine (k : String) (v : JValue) (fs : List (String × JValue)) :
    List (String × JValue) :=
  match lookupFirst fs k with
  | some v' => (k, v') :: eraseKeyFirst fs k
  | none => (k, v) :: fs

def parseJ : Nat → List Char → Option (JValue × List Char)
  | 0, _ => none
  | fuel + 1, cs0 =>
    let cs := skipWsL cs0
    match cs with
    | [] => none
    | 'n' :: rest =>
      if startsWithL (String.toList ("ull")) rest then some (.jnull, rest.drop 3)
      else none
    | 't' :: rest =>
      if startsWithL (String.toList ("rue")) rest then
        some (.jbool true, rest.drop 3)
      else none
    | 'f' :: rest =>
      if startsWithL (String.toList ("alse")) rest then
        some (.jbool false, rest.drop 4)
      else none
    | '"' :: rest =>
      match parseStrBody (rest.length + 1) rest with
      | some (body, r2) => some (.jstr (String.mk body), r2)
      | none => none
    | '[' :: rest =>
      let r1 := skipWsL rest
      match r1 with
      | ']' :: r2 => some (.jarr [], r2)
      | _ =>
        match parseJ fuel r1 with
        | some (v, r2) =>
          match skipWsL r2 with
          | ']' :: r3 => some (.jarr [v], r3)
          | ',' :: r3 =>
            match parseJ fuel ('[' :: r3) with
            | some (.jarr vs, r4) => some (.jarr (v :: vs), r4)
            | _ => none
          | _ => none
        | none => none
    | '\x7b' :: rest =>
      let r1 := skipWsL rest
      match r1 with
      | '\x7d' :: r2 => some (.jobj [], r2)
      | '"' :: rk =>
        match parseStrBody (rk.length + 1) rk with
        | some (kbody, r2) =>
          match skipWsL r2 with
          | ':' :: r3 =>
            match parseJ fuel r3 with
            | some (v, r4) =>
              match skipWsL r4 with
              | '\x7d' :: r5 => some (.jobj [(String.mk kbody, v)], r5)
              | ',' :: r5 =>
                match parseJ fuel ('\x7b' :: r5) with
                | some (.jobj fs, r6) =>
                  some (.jobj (objCombine (String.mk kbody) v fs), r6)
                | _ => none
              | _ => none
            | none => none
          | _ => none
        | none => none
      | _ => none
    | _ => parseNum cs

def jsonParseL (cs : List Char) : Option JValue :=
  match parseJ (cs.length + 1) cs with
  | some (v, rest) => if (skipWsL rest).isEmpty then some v else none
  | none => none

/-- Model of `json.loads`. -/
def jsonParse (s : String) : Option JValue :=
  jsonParseL s.toList

/-! ## Nutrition-text line parsing (blinkit_scrap.py lines 321-335) -/

/-- `re.match(r'Per (.*)', line)`: succeeds iff the line starts with
`"Per "`; group 1 is the rest of the line up to a newline. -/
def perMatch (line : List Char) : Option (List Char) :=
  if startsWithL (String.toList ("Per ")) line then
    some ((line.drop 4).takeWhile (fun c => c ≠ '\n'))
  else none

/-- One iteration of the `for line in lines` loop: a line containing a
colon is split once at the first colon into a stripped key/value pair
inserted into the mapping; other lines are ignored. -/
def nutriStep (d : List (String × String)) (line : List Char) :
    List (String × String) :=
  match splitFirst ':' line with
  | some (k, v) => dictInsert d (String.mk (pyStripL k)) (String.mk (pyStripL v))
  | none => d

/-- The nutrition-text parser embedded from the source: split on
newlines, test the first line against `Per (.*)` (consuming it and
storing the stripped remainder under `serving_size` on a match), then
fold the remaining lines through `nutriStep`. -/
def parseNutrition (s : String) : List (String × String) :=
  match splitCh '\n' s.toList with
  | [] => []
  | l0 :: ls =>
    match perMatch l0 with
    | some serving =>
      ls.foldl nutriStep
        (dictInsert [] ("serving_size") (String.mk (pyStripL serving)))
    | none => (l0 :: ls).foldl nutriStep []

/-- A colon-containing line as a stripped key/value pair, `none` for a
line without a colon. -/
def colonPair (line : List Char) : Option (String × String) :=
  match splitFirst ':' line with
  | some (k, v) => some (String.mk (pyStripL k), String.mk (pyStripL v))
  | none => none

/-- The nutrition parser as the specification words it: the text is
split on newlines; the first line, when it matches `Per <serving>`, is
consumed and its remainder stored as the serving size; every remaining
line containing a colon becomes a trimmed key/value pair, and lines
without a colon are dropped. -/
def parseNutritionSpec (s : String) : List (String × String) :=
  let lines := splitCh '\n' s.toList
  let start : List (String × String) × List (List Char) :=
    match lines with
    | l0 :: ls =>
      if startsWithL (String.toList ("Per ")) l0 then
        ([(("serving_size"),
            String.mk (pyStripL ((l0.drop 4).takeWhile (fun c => c ≠ '\n'))))],
          ls)
      else ([], lines)
    | [] => ([], [])
  (start.2.filterMap colonPair).foldl (fun d p => dictInsert d p.1 p.2) start.1

/-- The stringified form of a parsed nutrition mapping: each
`key: value` pair on its own line. -/
def stringifyNutrition (m : List (String × String)) : String :=
  String.mk (joinSep (String.toList ("\n"))
    (m.map fun p => p.1.toList ++ String.toList (": ") ++ p.2.toList))

/-! ## Detail-page normalization (blinkit_scrap.py lines 252-349) -/

/-- The states the `nutrition_info` field of a record passes through:
initialized to `None`, set to the verbatim attribute text by the
attribute scan, and unconditionally replaced by the parsed mapping
before the record is appended. -/
inductive NutriField where
  | isNull : NutriField
  | rawText : String → NutriField
  | parsed : List (String × String) → NutriField
deriving Repr

/-- A normalized product record (`variant_data`). -/
structure ProductRecord where
  product_id : JValue
  group_id : JValue
  name : JValue
  brand : JValue
  category_l0 : JValue
  category_l1 : JValue
  unit : JValue
  price : JValue
  original_price : JValue
  inventory : JValue
  product_url : String
  image_urls : List JValue
  nutrition_info : NutriField
  ingredients : Option String
  key_features : Option String
deriving Repr

/-- Accumulator of the free-text attribute scan. -/
structure AttrScan where
  nutrition : NutriField
  ingredients : Option String
  key_features : Option String
deriving Repr

/-- One attribute of the scan: a title match with a truthy value
captures the stripped text (`.strip()` on a non-string raises). -/
def scanAttr (acc : AttrScan) (attr : JValue) : Except Unit AttrScan :=
  match attr with
  | .jobj fs =>
    let title := jGetD fs ("title") .jnull
    let value := jGetD fs ("value") .jnull
    if jEqStr title ("Nutrition Information") && truthy value then
      match value with
      | .jstr s => .ok { acc with nutrition := .rawText (pyStrip s) }
      | _ => .error ()
    else if jEqStr title ("Ingredients") && truthy value then
      match value with
      | .jstr s => .ok { acc with ingredients := some (pyStrip s) }
      | _ => .error ()
    else if jEqStr title ("Key Features") && truthy value then
      match value with
      | .jstr s => .ok { acc with key_features := some (pyStrip s) }
      | _ => .error ()
    else .ok acc
  | _ => .error ()

/-- One item of the `image_urls` comprehension: kept when the item is
truthy, its media type equals `"image"` and the nested URL is truthy. -/
def imageUrlOf (item : JValue) : Except Unit (Option JValue) :=
  if truthy item then
    match item with
    | .jobj fs =>
      if jEqStr (jGetD fs ("media_type") .jnull) ("image") then
        match jGetD fs ("image") (.jobj []) with
        | .jobj ifs =>
          let u := jGetD ifs ("url") .jnull
          if truthy u then .ok (some u) else .ok none
        | _ => .error ()
      else .ok none
    | _ => .error ()
  else .ok none

/-- `variant.get(key, [{}])[0].get('name') if variant.get(key) else None`. -/
def categoryName (fs : List (String × JValue)) (key : String) :
    Except Unit JValue :=
  if truthy (jGetD fs key .jnull) then do
    let e ← pyIndex0 (jGetD fs key (.jarr [.jobj []]))
    pyGet e ("name") .jnull
  else .ok .jnull

/-- `variant.get('id') or variant.get('product_id') or product_id`: the
identifier falls back through the variant's `id` field, its
`product_id` field, then the outer requested identifier. -/
def variantPid (pid : String) (fs : List (String × JValue)) : JValue :=
  pyOr (jGetD fs ("id") .jnull)
    (pyOr (jGetD fs ("product_id") .jnull) (.jstr pid))

/-- The `image_urls` comprehension over the variant's assets. -/
def collectImages (items : List JValue) : Except Unit (List JValue) :=
  items.foldlM
    (fun acc item => do
      match (← imageUrlOf item) with
      | some u => pure (acc ++ [u])
      | none => pure acc)
    ([] : List JValue)

/-- The scan of `attribute_collection` for the three free-text titles. -/
def scanCollections (colls : List JValue) : Except Unit AttrScan :=
  colls.foldlM
    (fun acc coll =>
      match coll with
      | .jobj cfs => do
        let attrs ← pyIterList (jGetD cfs ("attributes") (.jarr []))
        attrs.foldlM scanAttr acc
      | _ => .error ())
    (AttrScan.mk .isNull none none)

/-- The final value of the `nutrition_info` field: the captured raw
text, when truthy, is line-parsed; otherwise the mapping is empty. -/
def finalNutrition (n : NutriField) : List (String × String) :=
  match n with
  | .rawText s => if s ≠ "" then parseNutrition s else []
  | _ => []

/-- The body of the `for variant in variants_info` loop for one variant:
`ok none` when the variant is skipped for lack of an identifier,
`ok (some record)` when a record is built, `error` when the Python code
would raise (a non-dict variant raises at the first `.get`). -/
def buildVariant (pid url : String) (v : JValue) :
    Except Unit (Option ProductRecord) :=
  match v with
  | .jobj fs =>
    if truthy (variantPid pid fs) = false then .ok none
    else do
      let cat0 ← categoryName fs ("level0_category")
      let cat1 ← categoryName fs ("level1_category")
      let items ← pyIterList (jGetD fs ("assets") (.jarr []))
      let imgs ← collectImages items
      let colls ← pyIterList (jGetD fs ("attribute_collection") (.jarr []))
      let scan ← scanCollections colls
      return some {
        product_id := variantPid pid fs
        group_id := jGetD fs ("group_id") .jnull
        name := jGetD fs ("name") .jnull
        brand := jGetD fs ("brand") .jnull
        category_l0 := cat0
        category_l1 := cat1
        unit := jGetD fs ("unit") .jnull
        price := jGetD fs ("price") .jnull
        original_price := jGetD fs ("mrp") .jnull
        inventory := jGetD fs ("inventory") .jnull
        product_url := url
        image_urls := imgs
        nutrition_info := .parsed (finalNutrition scan.nutrition)
        ingredients := scan.ingredients
        key_features := scan.key_features }
  | _ => .error ()

/-- The full variant loop; an exception at any variant aborts the whole
group (the caller then returns `[]`). -/
def normalizeVariants (pid url : String) :
    List JValue → Except Unit (List ProductRecord)
  | [] => .ok []
  | v :: vs => do
    let h ← buildVariant pid url v
    let rest ← normalizeVariants pid url vs
    match h with
    | some r => pure (r :: rest)
    | none => pure rest

/-- Lines 280-288: descend the fixed key path to `variants_info`,
falling back to a single `product` object; `error` when neither is
present (or the shape makes the Python code raise). -/
def extractVariants (state : JValue) : Except Unit (List JValue) := do
  let d ← pyGet state ("data") (.jobj [])
  let ui ← pyGet d ("ui") (.jobj [])
  let pdp ← pyGet ui ("pdp") (.jobj [])
  let raw ← pyGet pdp ("rawData") (.jobj [])
  let dd ← pyGet raw ("data") (.jobj [])
  let vi ← pyGet dd ("variants_info") (.jarr [])
  if truthy vi then
    pyIterList vi
  else do
    let sp ← pyGet dd ("product") .jnull
    if truthy sp then pure [sp] else .error ()

/-- The normalizer on a parsed embedded state: every exception of the
loop is caught and turned into an empty result. -/
def normalizeState (pid url : String) (state : JValue) : List ProductRecord :=
  match extractVariants state >>= normalizeVariants pid url with
  | .ok rs => rs
  | .error _ => []

/-- A successfully fetched detail page: its final URL and the contents
of its script tags. -/
structure FetchedPage where
  url : String
  scripts : List String

def stateMarker : List Char :=
  String.toList ("window.grofers.PRELOADED_STATE = \x7b")

def stateAssign : List Char :=
  String.toList ("window.grofers.PRELOADED_STATE = ")

def pridMarker : List Char :=
  String.toList ("/prid/")

/-- `soup.find('script', string=re.compile(...))`: the first script tag
whose content contains the PRELOADED_STATE assignment marker. -/
def findStateScript (scripts : List String) : Option String :=
  scripts.find? (fun s => containsSub s.toList stateMarker)

/-- Strip the assignment prefix, whitespace and a trailing semicolon
from the matched script content. -/
def cleanJsonText (sc : String) : List Char :=
  let cs := pyStripL (removeAll stateAssign sc.toList)
  if cs.getLast? == some ';' then cs.dropLast else cs

/-- `scrape_detailed_product_data` for a completed fetch: the URL
pattern check, marker search, JSON parse and normalization; every
failure yields `[]`. -/
def scrape_detailed_product_data (pid : String) (page : FetchedPage) :
    List ProductRecord :=
  if containsSub page.url.toList pridMarker = false then []
  else
    match findStateScript page.scripts with
    | none => []
    | some sc =>
      match jsonParseL (cleanJsonText sc) with
      | none => []
      | some st => normalizeState pid page.url st

/-! ## Category parsing (blinkit_scrap.py lines 41-66) -/

/-- An anchor element of the rendered categories page. -/
structure Anchor where
  text : String
  href : Option String
deriving Repr, DecidableEq

structure Category where
  name : String
  url : String
deriving Repr, DecidableEq

/-- The CSS selector `a[href^="/cn/"]`: the anchor has an `href`
attribute starting with `/cn/`. -/
def cnHref (a : Anchor) : Bool :=
  match a.href with
  | some h => startsWithL (String.toList ("/cn/")) h.toList
  | none => false

def cnSelect (anchors : List Anchor) : List Anchor :=
  anchors.filter cnHref

def baseUrl : String := "https://blinkit.com"

/-- The body of the link loop: a link with a truthy href yields a
`(name, url)` entry, resolving a relative path against the base
origin. -/
def catEntry (l : Anchor) : Option Category :=
  match l.href with
  | some h =>
    if h ≠ "" then
      some (Category.mk (pyStrip l.text)
        (if startsWithL (String.toList ("/")) h.toList then baseUrl ++ h
         else h))
    else none
  | none => none

/-- The `subcategories_list` accumulated by the loop. -/
def catsOf (links : List Anchor) : List Category :=
  links.filterMap catEntry

/-- The URL-keyed dict comprehension (first position, last value). -/
def catDedup (cats : List Category) : List Category :=
  (cats.foldl (fun d c => dictInsert d c.url c) []).map Prod.snd

/-- `parse_categories_html_v2` over the document's anchors: select the
`/cn/` links, build `(name, url)` entries resolving relative paths
against the base origin, and deduplicate by URL. -/
def parse_categories_html_v2 (anchors : List Anchor) : List Category :=
  if (cnSelect anchors).isEmpty then []
  else catDedup (catsOf (cnSelect anchors))

/-! ## The PLP scroll loop (blinkit_scrap.py lines 196-231)

The loop's control state is the previous measured height and the
attempt counter; its environment is the stream of measured scroll
heights and the stream of error-banner observations, both indexed by
the attempt counter.  The product-count query inside the body does not
influence control flow and is omitted. -/

def MAX_PLP_SCROLL_ATTEMPTS : Nat := 70

inductive ExitReason where
  | errorBanner
  | endOfContent
  | capReached
deriving Repr, DecidableEq

structure ScrollResult where
  attempts : Nat
  reason : ExitReason
deriving Repr, DecidableEq

/-- One `while scroll_attempts < MAX_PLP_SCROLL_ATTEMPTS` loop, with
`fuel = MAX_PLP_SCROLL_ATTEMPTS - attempts`. -/
def scrollLoopAux (heights : Nat → Int) (errs : Nat → Bool) :
    Int → Nat → Nat → ScrollResult
  | _, attempts, 0 => ScrollResult.mk attempts .capReached
  | prev, attempts, fuel + 1 =>
    if errs attempts then ScrollResult.mk attempts .errorBanner
    else if heights attempts = prev ∧ 0 < attempts then
      ScrollResult.mk attempts .endOfContent
    else
      scrollLoopAux heights errs (heights attempts) (attempts + 1) fuel

def scrollRun (heights : Nat → Int) (errs : Nat → Bool) : ScrollResult :=
  scrollLoopAux heights errs (-1) 0 MAX_PLP_SCROLL_ATTEMPTS

/-- The loop in the absence of error banners. -/
def scrollRunNE (heights : Nat → Int) : ScrollResult :=
  scrollRun heights (fun _ => false)

/-! ## Log mining (extract_pids.py)

The fixed pattern
`Error fetching PDP URL .* \(ID: (\d+)\): .*403 Client Error: Forbidden`
searched in each line, with Python's leftmost-start / greedy-backtrack
semantics: the leftmost occurrence of the leading literal, the rightmost
feasible ` (ID: ` position (greedy `.*`), a maximal digit run, and the
403 literal somewhere after, with no newline crossed by either `.*`. -/

def lit1 : List Char := String.toList ("Error fetching PDP URL ")

def litID : List Char := String.toList (" (ID: ")

def litMid : List Char := String.toList ("): ")

def lit403 : List Char := String.toList ("403 Client Error: Forbidden")

def occursAt (needle hay : List Char) (i : Nat) : Bool :=
  startsWithL needle (hay.drop i)

/-- No newline strictly inside `hay[i, j)`. -/
def noNL (hay : List Char) (i j : Nat) : Bool :=
  ((hay.drop i).take (j - i)).all (fun c => c ≠ '\n')

def firstOccFrom (needle hay : List Char) (i : Nat) : Option Nat :=
  ((List.range hay.length).filter
    (fun t => i ≤ t && occursAt needle hay t)).head?

/-- `p` is a feasible position for the ` (ID: ` literal when matching
from `base` (the position after the leading literal). -/
def validIdPos (hay : List Char) (base p : Nat) : Bool :=
  base ≤ p && occursAt litID hay p && noNL hay base p &&
  (let q := p + 6
   let ds := (hay.drop q).takeWhile Char.isDigit
   !ds.isEmpty && occursAt litMid hay (q + ds.length) &&
   (let r := q + ds.length + 3
    match firstOccFrom lit403 hay r with
    | some t => noNL hay r t
    | none => false))

/-- Attempt a match with the leading literal at position `i`: greedy
`.*` picks the rightmost feasible ` (ID: ` position; group 1 is the
digit run there. -/
def matchFromStart (hay : List Char) (i : Nat) : Option String :=
  let base := i + lit1.length
  match ((List.range hay.length).filter (validIdPos hay base)).getLast? with
  | some p => some (String.mk ((hay.drop (p + 6)).takeWhile Char.isDigit))
  | none => none

/-- `pid_pattern.search(line)` followed by `match.group(1)`. -/
def lineMatch (line : String) : Option String :=
  let hay := line.toList
  (((List.range hay.length).filter (occursAt lit1 hay)).filterMap
    (matchFromStart hay)).head?

/-- Python `set.add`: a set modelled as a duplicate-free list. -/
def setAdd (s : List String) (p : String) : List String :=
  if p ∈ s then s else s ++ [p]

/-- `extract_failed_pids` over the lines of the log file. -/
def extract_failed_pids (lines : List String) : List String :=
  lines.foldl
    (fun s l =>
      match lineMatch l with
      | some p => setAdd s p
      | none => s)
    []

def insLe (x : String) : List String → List String
  | [] => [x]
  | y :: ys => if x ≤ y then x :: y :: ys else y :: insLe x ys

/-- Python `sorted` on strings. -/
def sortStrings (l : List String) : List String :=
  l.foldr insLe []

/-- `save_pids_to_file`: an empty set writes nothing (`none`); otherwise
the sorted identifiers, one per line. -/
def save_pids_to_file (pids : List String) : Option (List String) :=
  if pids.isEmpty then none else some (sortStrings pids)

/-! ## Concrete demonstration inputs -/

/-- An embedded state with one variant carrying an `id`. -/
def demoState1 : JValue :=
  .jobj [("data", .jobj [("ui", .jobj [("pdp", .jobj [("rawData",
    .jobj [("data", .jobj [("variants_info",
      .jarr [.jobj [("id", .jstr "5")]])])])])])])]

/-- The embedded-state blob of the single-variant example scenario, as
it appears in page markup. -/
def demoScript2 : String :=
  "window.grofers.PRELOADED_STATE = \x7b\"data\":\x7b\"ui\":\x7b\"pdp\":\x7b\"rawData\":\x7b\"data\":\x7b\"variants_info\":[\x7b\"id\":\"7\",\"name\":\"A\"\x7d]\x7d\x7d\x7d\x7d\x7d\x7d;"

def demoPage2 : FetchedPage :=
  FetchedPage.mk ("https://blinkit.com/prn/product/prid/999") [demoScript2]

/-- The record the example scenario is expected to produce. -/
def demoRecord2 : ProductRecord where
  product_id := .jstr "7"
  group_id := .jnull
  name := .jstr "A"
  brand := .jnull
  category_l0 := .jnull
  category_l1 := .jnull
  unit := .jnull
  price := .jnull
  original_price := .jnull
  inventory := .jnull
  product_url := "https://blinkit.com/prn/product/prid/999"
  image_urls := []
  nutrition_info := .parsed []
  ingredients := none
  key_features := none

def demoScript10 : String :=
  "window.grofers.PRELOADED_STATE = \x7b\"data\":\x7b\"ui\":\x7b\"pdp\":\x7b\"rawData\":\x7b\"data\":\x7b\"variants_info\":[\x7b\"id\":\"9\"\x7d]\x7d\x7d\x7d\x7d\x7d\x7d;"

def demoPage10 : FetchedPage :=
  FetchedPage.mk ("https://blinkit.com/prn/product/prid/9") [demoScript10]

def demoRecord10 : ProductRecord where
  product_id := .jstr "9"
  group_id := .jnull
  name := .jnull
  brand := .jnull
  category_l0 := .jnull
  category_l1 := .jnull
  unit := .jnull
  price := .jnull
  original_price := .jnull
  inventory := .jnull
  product_url := "https://blinkit.com/prn/product/prid/9"
  image_urls := []
  nutrition_info := .parsed []
  ingredients := none
  key_features := none

/-- The example log line of the log-mining scenario. -/
def demoLogLine : String :=
  "Error fetching PDP URL x (ID: 8): 403 Client Error: Forbidden"

/-- The anchors of the category example scenario: two anchors with the
same text and distinct hrefs, plus a duplicate of the first. -/
def demoAnchors : List Anchor :=
  [Anchor.mk ("Snacks") (some ("/cn/chips-crisps/cid/1/2")),
   Anchor.mk ("Snacks") (some ("/cn/biscuits/cid/1/3")),
   Anchor.mk ("Snacks") (some ("/cn/chips-crisps/cid/1/2"))]

/-! # Theorems -/

/-! ## Scroll-loop lemmas -/

theorem scrollLoopAux_attempts_le (heights : Nat → Int) (errs : Nat → Bool) :
    ∀ fuel prev attempts,
      (scrollLoopAux heights errs prev attempts fuel).attempts ≤
        attempts + fuel := by
  intro fuel
  induction fuel with
  | zero => intro prev attempts; simp [scrollLoopAux]
  | succ f ih =>
    intro prev attempts
    simp only [scrollLoopAux]
    split
    · simp
    · split
      · simp
      · have := ih (heights attempts) (attempts + 1)
        omega

theorem scrollLoopAux_reach (heights : Nat → Int) :
    ∀ fuel a k, a ≤ k → k < a + fuel → 0 < a →
      heights k = heights (k - 1) →
      (∀ j, a ≤ j → j < k → heights j ≠ heights (j - 1)) →
      scrollLoopAux heights (fun _ => false) (heights (a - 1)) a fuel =
        ScrollResult.mk k .endOfContent := by
  intro fuel
  induction fuel with
  | zero => intro a k hak hk _ _ _; omega
  | succ f ih =>
    intro a k hak hk ha hstall hgrow
    by_cases hk' : a = k
    · subst hk'
      simp only [scrollLoopAux]
      rw [if_neg (by simp), if_pos ⟨hstall, ha⟩]
    · have haklt : a < k := lt_of_le_of_ne hak hk'
      have hne : heights a ≠ heights (a - 1) := hgrow a le_rfl haklt
      simp only [scrollLoopAux]
      rw [if_neg (by simp), if_neg (by intro h; exact hne h.1)]
      have : heights a = heights ((a + 1) - 1) := by simp
      rw [this]
      exact ih (a + 1) k haklt (by omega) (by omega) hstall
        (fun j hj hjk => hgrow j (by omega) hjk)

theorem scrollLoopAux_cap (heights : Nat → Int) :
    ∀ fuel a, 0 < a →
      (∀ j, a ≤ j → j < a + fuel → heights j ≠ heights (j - 1)) →
      scrollLoopAux heights (fun _ => false) (heights (a - 1)) a fuel =
        ScrollResult.mk (a + fuel) .capReached := by
  intro fuel
  induction fuel with
  | zero => intro a _ _; simp [scrollLoopAux]
  | succ f ih =>
    intro a ha hgrow
    have hne : heights a ≠ heights (a - 1) := hgrow a le_rfl (by omega)
    simp only [scrollLoopAux]
    rw [if_neg (by simp), if_neg (by intro h; exact hne h.1)]
    have h1 : heights a = heights ((a + 1) - 1) := by simp
    rw [h1, ih (a + 1) (by omega) (fun j hj hjk => hgrow j (by omega) (by omega))]
    congr 1
    omega

theorem scrollRunNE_step (heights : Nat → Int) :
    scrollRunNE heights =
      scrollLoopAux heights (fun _ => false) (heights 0) 1 69 := by
  show scrollLoopAux heights (fun _ => false) (-1) 0 (69 + 1) = _
  simp only [scrollLoopAux]
  rw [if_neg (by simp), if_neg (by simp)]

/-- C6: for every sequence of measured scroll heights (and of
error-banner observations), including ones that grow forever, the
listing-discovery scroll loop performs at most
`MAX_PLP_SCROLL_ATTEMPTS = 70` iterations before terminating. -/
theorem scroll_attempts_bounded (heights : Nat → Int) (errs : Nat → Bool) :
    (scrollRun heights errs).attempts ≤ MAX_PLP_SCROLL_ATTEMPTS := by
  have := scrollLoopAux_attempts_le heights errs MAX_PLP_SCROLL_ATTEMPTS (-1) 0
  simpa [scrollRun] using this

theorem scrollRunNE_reach (heights : Nat → Int) (k : Nat) (h1 : 0 < k)
    (h2 : k < MAX_PLP_SCROLL_ATTEMPTS) (h3 : heights k = heights (k - 1))
    (h4 : ∀ j, j < k → 0 < j → heights j ≠ heights (j - 1)) :
    scrollRunNE heights = ScrollResult.mk k .endOfContent := by
  rw [scrollRunNE_step, show heights 0 = heights (1 - 1) from by norm_num]
  simp only [MAX_PLP_SCROLL_ATTEMPTS] at h2
  exact scrollLoopAux_reach heights 69 1 k h1 (by omega) one_pos h3
    (fun j hj hjk => h4 j hjk hj)

theorem scrollRunNE_cap (heights : Nat → Int)
    (h : ∀ j, 0 < j → j < MAX_PLP_SCROLL_ATTEMPTS →
      heights j ≠ heights (j - 1)) :
    scrollRunNE heights =
      ScrollResult.mk MAX_PLP_SCROLL_ATTEMPTS .capReached := by
  rw [scrollRunNE_step, show heights 0 = heights (1 - 1) from by norm_num]
  exact scrollLoopAux_cap heights 69 1 one_pos
    (fun j hj hjk => h j (by omega) (by simp only [MAX_PLP_SCROLL_ATTEMPTS]; omega))

/-- C7: in a no-error listing-discovery run, the loop exits through the
end-of-content branch exactly when some measured height equals the
immediately preceding measurement after at least one iteration (before
the cap), and the first such single no-growth cycle stops the loop at
exactly that iteration. -/
theorem scroll_stall_characterization (heights : Nat → Int) :
    ((scrollRunNE heights).reason = ExitReason.endOfContent ↔
      ∃ k, 0 < k ∧ k < MAX_PLP_SCROLL_ATTEMPTS ∧
        heights k = heights (k - 1) ∧
        ∀ j, j < k → 0 < j → heights j ≠ heights (j - 1)) ∧
    (∀ k, 0 < k → k < MAX_PLP_SCROLL_ATTEMPTS →
      heights k = heights (k - 1) →
      (∀ j, j < k → 0 < j → heights j ≠ heights (j - 1)) →
      (scrollRunNE heights).attempts = k) := by
  refine ⟨⟨?_, ?_⟩, ?_⟩
  · intro hr
    by_cases hex : ∃ k, 0 < k ∧ k < MAX_PLP_SCROLL_ATTEMPTS ∧
        heights k = heights (k - 1)
    · refine ⟨Nat.find hex, (Nat.find_spec hex).1, (Nat.find_spec hex).2.1,
        (Nat.find_spec hex).2.2, ?_⟩
      intro j hj hj0 heq
      exact Nat.find_min hex hj ⟨hj0, lt_trans hj (Nat.find_spec hex).2.1, heq⟩
    · exfalso
      push_neg at hex
      rw [scrollRunNE_cap heights (fun j hj hjk => hex j hj hjk)] at hr
      simp at hr
  · rintro ⟨k, h1, h2, h3, h4⟩
    rw [scrollRunNE_reach heights k h1 h2 h3 h4]
  · intro k h1 h2 h3 h4
    rw [scrollRunNE_reach heights k h1 h2 h3 h4]

/-- Witness for C7: a height stream that grows once and then stalls
stops with exactly two attempts. -/
theorem scroll_stall_characterization_witness :
    (scrollRunNE (fun n => if n = 0 then (0 : Int) else 1)).attempts = 2 :=
  (scroll_stall_characterization (fun n => if n = 0 then (0 : Int) else 1)).2 2
    (by decide) (by decide) (by decide) (by decide)

/-! ## Detail-page extraction: example scenario and error paths -/

set_option maxRecDepth 10000

/-- C2: the embedded-state blob
`{"data":{"ui":{"pdp":{"rawData":{"data":{"variants_info":[{"id":"7","name":"A"}]}}}}}}`
(see `demoScript2`) yields exactly one record whose `product_id` is
`"7"` and `name` is `"A"`, with every other field present at its
null/empty default (see `demoRecord2`). -/
theorem detail_example_single_variant :
    scrape_detailed_product_data ("999") demoPage2 = [demoRecord2] := rfl

/-- C4: each failing fetch outcome — a final URL without the `/prid/`
marker, page content without the PRELOADED_STATE assignment marker, an
unparseable blob, or a parsed state with neither a variants collection
nor a single-product fallback — makes `scrape_detailed_product_data`
return `[]` (the embedding is total, so no exception escapes). -/
theorem scrape_error_paths_empty (pid : String) (page : FetchedPage) :
    (containsSub page.url.toList pridMarker = false →
      scrape_detailed_product_data pid page = []) ∧
    (findStateScript page.scripts = none →
      scrape_detailed_product_data pid page = []) ∧
    (∀ sc, findStateScript page.scripts = some sc →
      jsonParseL (cleanJsonText sc) = none →
      scrape_detailed_product_data pid page = []) ∧
    (∀ sc st, findStateScript page.scripts = some sc →
      jsonParseL (cleanJsonText sc) = some st →
      extractVariants st = .error () →
      scrape_detailed_product_data pid page = []) := by
  refine ⟨?_, ?_, ?_, ?_⟩
  · intro h
    unfold scrape_detailed_product_data
    rw [if_pos h]
  · intro h
    unfold scrape_detailed_product_data
    split
    · rfl
    · rw [h]
  · intro sc hsc hp
    unfold scrape_detailed_product_data
    split
    · rfl
    · rw [hsc]
      simp [hp]
  · intro sc st hsc hp hex
    have hns : normalizeState pid page.url st = [] := by
      simp [normalizeState, hex, Bind.bind, Except.bind]
    unfold scrape_detailed_product_data
    split
    · rfl
    · rw [hsc]
      simp [hp, hns]

/-- Witness for C4: a fetch redirected away from the detail-page URL
pattern yields zero records. -/
theorem scrape_error_paths_empty_witness :
    scrape_detailed_product_data ("1")
      (FetchedPage.mk ("https://blinkit.com/") []) = [] :=
  (scrape_error_paths_empty ("1") (FetchedPage.mk ("https://blinkit.com/") [])).1
    (by decide)

/-! ## Nutrition parsing: equivalence with the specification wording -/

theorem foldl_nutriStep_filterMap (lines : List (List Char)) :
    ∀ init, lines.foldl nutriStep init =
      (lines.filterMap colonPair).foldl (fun d p => dictInsert d p.1 p.2) init := by
  induction lines with
  | nil => intro init; rfl
  | cons l ls ih =>
    intro init
    cases hs : splitFirst ':' l with
    | none => simp [nutriStep, colonPair, hs, ih]
    | some kv =>
      obtain ⟨k, v⟩ := kv
      simp [nutriStep, colonPair, hs, ih]

/-- C3: the nutrition-text line parser behaves exactly as described:
split on newlines, consume a first line matching `Per <serving>` into
`serving_size`, turn every remaining colon-containing line into a
trimmed key/value pair, and silently drop lines without a colon
(`parseNutritionSpec` is that description verbatim). -/
theorem parseNutrition_eq_spec (s : String) :
    parseNutrition s = parseNutritionSpec s := by
  unfold parseNutrition parseNutritionSpec
  cases hl : splitCh '\n' s.toList with
  | nil => rfl
  | cons l0 ls =>
    simp only []
    by_cases hper : startsWithL (String.toList ("Per ")) l0 = true
    · rw [if_pos hper]
      have h1 : perMatch l0 =
          some ((l0.drop 4).takeWhile (fun c => c ≠ '\n')) := by
        unfold perMatch
        rw [if_pos hper]
      simp only [h1]
      exact foldl_nutriStep_filterMap ls _
    · rw [if_neg hper]
      have h1 : perMatch l0 = none := by
        unfold perMatch
        rw [if_neg hper]
      simp only [h1]
      exact foldl_nutriStep_filterMap (l0 :: ls) []

/-! ## Well-formedness of parsed nutrition mappings -/

theorem mem_keys_dictInsert {α : Type} (d : List (String × α)) (k x : String)
    (v : α) :
    x ∈ (dictInsert d k v).map Prod.fst ↔ x = k ∨ x ∈ d.map Prod.fst := by
  induction d with
  | nil => simp [dictInsert]
  | cons p rest ih =>
    obtain ⟨k', v'⟩ := p
    by_cases h : k' = k
    · subst h
      simp [dictInsert]
    · simp only [dictInsert, if_neg h, List.map_cons, List.mem_cons, ih]
      tauto

theorem nodup_keys_dictInsert {α : Type} (d : List (String × α)) (k : String)
    (v : α) (h : (d.map Prod.fst).Nodup) :
    ((dictInsert d k v).map Prod.fst).Nodup := by
  induction d with
  | nil => simp [dictInsert]
  | cons p rest ih =>
    obtain ⟨k', v'⟩ := p
    simp only [List.map_cons, List.nodup_cons] at h
    by_cases hk : k' = k
    · have e : dictInsert ((k', v') :: rest) k v = (k, v) :: rest := by
        show (if k' = k then (k, v) :: rest else (k', v') :: dictInsert rest k v) = _
        rw [if_pos hk]
      rw [hk] at h
      rw [e, List.map_cons]
      exact List.Nodup.cons h.1 h.2
    · have e : dictInsert ((k', v') :: rest) k v =
          (k', v') :: dictInsert rest k v := by
        show (if k' = k then (k, v) :: rest else (k', v') :: dictInsert rest k v) = _
        rw [if_neg hk]
      rw [e, List.map_cons]
      refine List.Nodup.cons ?_ (ih h.2)
      intro hmem
      rcases (mem_keys_dictInsert rest k k' v).mp hmem with h1 | h2
      · exact hk h1
      · exact h.1 h2

theorem nodup_keys_nutriStep (d : List (String × String)) (line : List Char)
    (h : (d.map Prod.fst).Nodup) :
    ((nutriStep d line).map Prod.fst).Nodup := by
  unfold nutriStep
  split
  · exact nodup_keys_dictInsert _ _ _ h
  · exact h

theorem nodup_keys_foldl_nutriStep (lines : List (List Char)) :
    ∀ d, (d.map Prod.fst).Nodup →
      ((lines.foldl nutriStep d).map Prod.fst).Nodup := by
  induction lines with
  | nil => intro d h; exact h
  | cons l ls ih =>
    intro d h
    exact ih _ (nodup_keys_nutriStep d l h)

theorem parseNutrition_keys_nodup (s : String) :
    ((parseNutrition s).map Prod.fst).Nodup := by
  unfold parseNutrition
  cases hl : splitCh '\n' s.toList with
  | nil => simp
  | cons l0 ls =>
    simp only []
    cases hp : perMatch l0 with
    | none =>
      simp only [hp]
      exact nodup_keys_foldl_nutriStep (l0 :: ls) [] (by simp)
    | some serving =>
      simp only [hp]
      exact nodup_keys_foldl_nutriStep ls
        (dictInsert [] ("serving_size") (String.mk (pyStripL serving)))
        (by simp [dictInsert])

/-- C9: re-parsing the stringified form of a previously parsed
nutrition mapping (each `key: value` pair on its own line) is total and
yields a well-formed, duplicate-free mapping again — a best-effort
re-parse, not an exact round trip. -/
theorem nutrition_reparse_wellformed (m : List (String × String)) :
    ((parseNutrition (stringifyNutrition m)).map Prod.fst).Nodup :=
  parseNutrition_keys_nodup _

/-! ## Category parsing lemmas -/

theorem dictInsert_cons {α : Type} (k' : String) (v' : α)
    (rest : List (String × α)) (k : String) (v : α) :
    dictInsert ((k', v') :: rest) k v =
      if k' = k then (k, v) :: rest else (k', v') :: dictInsert rest k v := rfl

theorem mem_dictInsert {α : Type} (d : List (String × α)) (k : String) (v : α)
    (q : String × α) : q ∈ dictInsert d k v → q = (k, v) ∨ q ∈ d := by
  induction d with
  | nil =>
    intro h
    simp [dictInsert] at h
    exact Or.inl h
  | cons p rest ih =>
    obtain ⟨k', v'⟩ := p
    intro h
    rw [dictInsert_cons] at h
    by_cases hk : k' = k
    · rw [if_pos hk] at h
      rcases List.mem_cons.mp h with h1 | h2
      · exact Or.inl h1
      · exact Or.inr (List.mem_cons_of_mem _ h2)
    · rw [if_neg hk] at h
      rcases List.mem_cons.mp h with h1 | h2
      · exact Or.inr (h1 ▸ List.mem_cons_self _ _)
      · rcases ih h2 with h3 | h4
        · exact Or.inl h3
        · exact Or.inr (List.mem_cons_of_mem _ h4)

theorem catFold_mem (cats : List Category) :
    ∀ d0 p, p ∈ cats.foldl (fun d c => dictInsert d c.url c) d0 →
      p ∈ d0 ∨ p.2 ∈ cats := by
  induction cats with
  | nil =>
    intro d0 p h
    exact Or.inl h
  | cons c cs ih =>
    intro d0 p h
    rcases ih _ p h with h1 | h2
    · rcases mem_dictInsert _ _ _ _ h1 with h3 | h4
      · rw [h3]
        exact Or.inr (List.mem_cons_self _ _)
      · exact Or.inl h4
    · exact Or.inr (List.mem_cons_of_mem _ h2)

theorem catFold_key (cats : List Category) :
    ∀ d0, (∀ p ∈ d0, p.1 = p.2.url) →
      ∀ p ∈ cats.foldl (fun d c => dictInsert d c.url c) d0, p.1 = p.2.url := by
  induction cats with
  | nil =>
    intro d0 h p hp
    exact h p hp
  | cons c cs ih =>
    intro d0 h p hp
    refine ih _ ?_ p hp
    intro q hq
    rcases mem_dictInsert _ _ _ _ hq with h1 | h2
    · rw [h1]
    · exact h q h2

theorem catFold_keys_nodup (cats : List Category) :
    ∀ d0, (d0.map Prod.fst).Nodup →
      ((cats.foldl (fun d c => dictInsert d c.url c) d0).map Prod.fst).Nodup := by
  induction cats with
  | nil =>
    intro d0 h
    exact h
  | cons c cs ih =>
    intro d0 h
    exact ih _ (nodup_keys_dictInsert _ _ _ h)

theorem cn_starts_with_slash (h : List Char)
    (hcn : startsWithL (String.toList ("/cn/")) h = true) :
    startsWithL (String.toList ("/")) h = true := by
  cases h with
  | nil => simp [startsWithL] at hcn
  | cons c cs =>
    simp [startsWithL] at hcn ⊢
    exact hcn.1

/-- C5: the category parser returns a list with pairwise-distinct URLs;
every returned entry is a selected `/cn/` anchor's href resolved against
the base origin; an input with no `/cn/` anchors yields `[]`; and the
two-anchors-plus-duplicate example yields exactly the two expected
entries with distinct absolute URLs. -/
theorem categories_dedup_by_url (anchors : List Anchor) :
    ((parse_categories_html_v2 anchors).map Category.url).Nodup ∧
    (∀ c ∈ parse_categories_html_v2 anchors,
      ∃ a ∈ cnSelect anchors, ∃ h, a.href = some h ∧ c.url = baseUrl ++ h) ∧
    (cnSelect anchors = [] → parse_categories_html_v2 anchors = []) ∧
    parse_categories_html_v2 demoAnchors =
      [Category.mk ("Snacks") ("https://blinkit.com/cn/chips-crisps/cid/1/2"),
       Category.mk ("Snacks") ("https://blinkit.com/cn/biscuits/cid/1/3")] := by
  refine ⟨?_, ?_, ?_, by decide⟩
  · unfold parse_categories_html_v2
    split
    · simp
    · unfold catDedup
      rw [List.map_map]
      have hkey := catFold_key (catsOf (cnSelect anchors)) ([]) (by simp)
      have hmapeq :
          ((catsOf (cnSelect anchors)).foldl
              (fun d c => dictInsert d c.url c) []).map (Category.url ∘ Prod.snd) =
            ((catsOf (cnSelect anchors)).foldl
              (fun d c => dictInsert d c.url c) []).map Prod.fst :=
        List.map_congr_left (fun p hp => (hkey p hp).symm)
      rw [hmapeq]
      exact catFold_keys_nodup _ ([]) (by simp)
  · intro c hc
    unfold parse_categories_html_v2 at hc
    split at hc
    · simp at hc
    · unfold catDedup at hc
      rcases List.mem_map.mp hc with ⟨p, hp, hpc⟩
      rcases catFold_mem _ ([]) p hp with h1 | h2
      · simp at h1
      · rw [hpc] at h2
        rcases List.mem_filterMap.mp h2 with ⟨a, ha, hfa⟩
        refine ⟨a, ha, ?_⟩
        unfold catEntry at hfa
        cases hhref : a.href with
        | none => rw [hhref] at hfa; simp at hfa
        | some h =>
          rw [hhref] at hfa
          have hfa' : (if h ≠ "" then
              some (Category.mk (pyStrip a.text)
                (if startsWithL (String.toList ("/")) h.toList then baseUrl ++ h
                 else h))
            else none) = some c := hfa
          by_cases hne : h = ""
          · rw [if_neg (by simp [hne])] at hfa'
            exact absurd hfa' (by simp)
          · rw [if_pos hne] at hfa'
            have hcn : cnHref a = true := List.of_mem_filter ha
            unfold cnHref at hcn
            rw [hhref] at hcn
            have hslash := cn_starts_with_slash h.toList hcn
            rw [if_pos hslash] at hfa'
            refine ⟨h, rfl, ?_⟩
            rw [← Option.some_inj.mp hfa']
  · intro h
    unfold parse_categories_html_v2
    rw [h]
    simp

/-- Witness for C5: an input with no `/cn/` anchors yields the empty
list. -/
theorem categories_dedup_by_url_witness :
    parse_categories_html_v2 [Anchor.mk ("Home") none] = [] :=
  (categories_dedup_by_url [Anchor.mk ("Home") none]).2.2.1 (by decide)

/-! ## Log-mining lemmas -/

theorem mem_setAdd (s : List String) (p q : String) :
    q ∈ setAdd s p ↔ q ∈ s ∨ q = p := by
  unfold setAdd
  by_cases hps : p ∈ s
  · rw [if_pos hps]
    constructor
    · exact Or.inl
    · rintro (h | rfl)
      · exact h
      · exact hps
  · rw [if_neg hps]
    simp

theorem nodup_setAdd (s : List String) (p : String) (h : s.Nodup) :
    (setAdd s p).Nodup := by
  unfold setAdd
  by_cases hps : p ∈ s
  · rw [if_pos hps]
    exact h
  · rw [if_neg hps]
    refine List.Nodup.append h (List.nodup_singleton p) ?_
    intro x hx hxp
    rw [List.mem_singleton] at hxp
    exact hps (hxp ▸ hx)

theorem extract_fold_mem (lines : List String) :
    ∀ s p,
      (p ∈ lines.foldl
        (fun s l => match lineMatch l with
          | some q => setAdd s q
          | none => s) s) ↔
      (p ∈ s ∨ ∃ l ∈ lines, lineMatch l = some p) := by
  induction lines with
  | nil =>
    intro s p
    simp
  | cons l ls ih =>
    intro s p
    simp only [List.foldl_cons]
    cases hm : lineMatch l with
    | none =>
      rw [ih]
      simp [hm]
    | some q =>
      rw [ih]
      simp only [show (match some q with
          | some q' => setAdd s q'
          | none => s) = setAdd s q from rfl, mem_setAdd, List.mem_cons, hm]
      constructor
      · rintro ((h | rfl) | h)
        · exact Or.inl h
        · exact Or.inr ⟨l, Or.inl rfl, hm⟩
        · rcases h with ⟨l', hl', hm'⟩
          exact Or.inr ⟨l', Or.inr hl', hm'⟩
      · rintro (h | ⟨l', (rfl | hl'), hm'⟩)
        · exact Or.inl (Or.inl h)
        · rw [hm] at hm'
          exact Or.inl (Or.inr (Option.some_inj.mp hm').symm)
        · exact Or.inr ⟨l', hl', hm'⟩

theorem extract_fold_nodup (lines : List String) :
    ∀ s, s.Nodup →
      (lines.foldl
        (fun s l => match lineMatch l with
          | some q => setAdd s q
          | none => s) s).Nodup := by
  induction lines with
  | nil =>
    intro s h
    exact h
  | cons l ls ih =>
    intro s h
    simp only [List.foldl_cons]
    cases hm : lineMatch l with
    | none => exact ih s h
    | some q => exact ih (setAdd s q) (nodup_setAdd s q h)

theorem insLe_perm (x : String) (l : List String) :
    List.Perm (insLe x l) (x :: l) := by
  induction l with
  | nil => exact List.Perm.refl _
  | cons y ys ih =>
    unfold insLe
    by_cases hxy : x ≤ y
    · rw [if_pos hxy]
    · rw [if_neg hxy]
      exact List.Perm.trans (List.Perm.cons y ih) (List.Perm.swap x y ys)

theorem sortStrings_perm (l : List String) :
    List.Perm (sortStrings l) l := by
  induction l with
  | nil => exact List.Perm.refl _
  | cons x xs ih =>
    unfold sortStrings
    exact List.Perm.trans (insLe_perm x (xs.foldr insLe []))
      (List.Perm.cons x ih)

/-- C8: the log-mining pass (`extract_failed_pids` then
`save_pids_to_file`) outputs exactly the deduplicated set of
identifiers captured per line by the fixed pattern (`lineMatch`), one
per line: an identifier is output iff some line matches with it,
non-matching lines contribute nothing, and duplicates appear once. -/
theorem log_mining_dedup (lines : List String) :
    (∀ p, p ∈ (save_pids_to_file (extract_failed_pids lines)).getD [] ↔
      ∃ l ∈ lines, lineMatch l = some p) ∧
    ((save_pids_to_file (extract_failed_pids lines)).getD []).Nodup := by
  have hmem : ∀ p, p ∈ extract_failed_pids lines ↔
      ∃ l ∈ lines, lineMatch l = some p := by
    intro p
    unfold extract_failed_pids
    rw [extract_fold_mem]
    simp
  have hnodup : (extract_failed_pids lines).Nodup :=
    extract_fold_nodup lines [] List.nodup_nil
  unfold save_pids_to_file
  by_cases hemp : (extract_failed_pids lines).isEmpty = true
  · rw [if_pos hemp]
    rw [List.isEmpty_iff] at hemp
    constructor
    · intro p
      simp only [Option.getD_none]
      constructor
      · intro h
        simp at h
      · rintro ⟨l, hl, hm⟩
        have hp : p ∈ extract_failed_pids lines := (hmem p).mpr ⟨l, hl, hm⟩
        rw [hemp] at hp
        simp at hp
    · simp
  · rw [if_neg hemp]
    have hperm := sortStrings_perm (extract_failed_pids lines)
    constructor
    · intro p
      simp only [Option.getD_some]
      rw [hperm.mem_iff]
      exact hmem p
    · simp only [Option.getD_some]
      exact hperm.nodup_iff.mpr hnodup

/-- Witness for C8: the example 403 log line contributes its identifier
to the output. -/
theorem log_mining_dedup_witness :
    ("8") ∈ (save_pids_to_file (extract_failed_pids [demoLogLine])).getD [] :=
  ((log_mining_dedup [demoLogLine]).1 ("8")).mpr
    ⟨demoLogLine, List.mem_singleton_self _, by decide⟩

/-! ## Variant-loop lemmas -/

theorem normalizeVariants_length (pid url : String) :
    ∀ vs rs, normalizeVariants pid url vs = .ok rs → rs.length ≤ vs.length := by
  intro vs
  induction vs with
  | nil =>
    intro rs h
    simp only [normalizeVariants] at h
    injection h with h2
    simp [← h2]
  | cons v vs ih =>
    intro rs h
    simp only [normalizeVariants] at h
    cases hb : buildVariant pid url v with
    | error e =>
      rw [hb] at h
      simp [Bind.bind, Except.bind] at h
    | ok ho =>
      rw [hb] at h
      cases hr : normalizeVariants pid url vs with
      | error e =>
        rw [hr] at h
        simp [Bind.bind, Except.bind] at h
      | ok rest =>
        rw [hr] at h
        have hlen := ih rest hr
        cases ho with
        | none =>
          simp [Bind.bind, Except.bind, pure, Except.pure] at h
          rw [← h]
          calc rest.length ≤ vs.length := hlen
            _ ≤ vs.length + 1 := by omega
        | some r =>
          simp [Bind.bind, Except.bind, pure, Except.pure] at h
          rw [← h]
          simp only [List.length_cons]
          omega

/-- C1: for every embedded-state payload whose variants collection has
`N` entries, the normalizer returns at most `N` records; a variant
whose identifier fallback chain (`id`, then `product_id`, then the
outer requested identifier, see `variantPid`) is falsy is skipped
(`ok none`), and skipping it leaves the other variants' records
unchanged. -/
theorem normalizer_at_most_one_record_per_variant (pid url : String) :
    (∀ state vs, extractVariants state = .ok vs →
      (normalizeState pid url state).length ≤ vs.length) ∧
    (∀ fs, truthy (variantPid pid fs) = false →
      buildVariant pid url (.jobj fs) = .ok none) ∧
    (∀ v l1 l2, buildVariant pid url v = .ok none →
      normalizeVariants pid url (l1 ++ v :: l2) =
        normalizeVariants pid url (l1 ++ l2)) := by
  refine ⟨?_, ?_, ?_⟩
  · intro state vs hx
    unfold normalizeState
    rw [hx]
    have hb : (Except.ok vs >>= normalizeVariants pid url) =
        normalizeVariants pid url vs := rfl
    rw [hb]
    cases hn : normalizeVariants pid url vs with
    | error e => simp
    | ok rs => simpa using normalizeVariants_length pid url vs rs hn
  · intro fs hfal
    simp [buildVariant, hfal]
  · intro v l1 l2 hskip
    induction l1 with
    | nil =>
      simp only [List.nil_append, normalizeVariants]
      rw [hskip]
      cases hn : normalizeVariants pid url l2 with
      | error e => simp [Bind.bind, Except.bind]
      | ok rest => simp [Bind.bind, Except.bind, pure, Except.pure]
    | cons x l1' ih =>
      simp only [List.cons_append, normalizeVariants, List.append_eq]
      rw [ih]

/-- Witness for C1: the one-variant demonstration state yields at most
one record. -/
theorem normalizer_at_most_one_record_per_variant_witness :
    (normalizeState ("1") ("u") demoState1).length ≤ 1 :=
  (normalizer_at_most_one_record_per_variant ("1") ("u")).1 demoState1
    [.jobj [("id", .jstr "5")]] (by rfl)

/-! ## Record-shape lemmas -/

theorem buildVariant_inversion (pid url : String) (fs : List (String × JValue))
    (r : ProductRecord) (h : buildVariant pid url (.jobj fs) = .ok (some r)) :
    ∃ cat0 cat1 items imgs colls scan,
      categoryName fs ("level0_category") = .ok cat0 ∧
      categoryName fs ("level1_category") = .ok cat1 ∧
      pyIterList (jGetD fs ("assets") (.jarr [])) = .ok items ∧
      collectImages items = .ok imgs ∧
      pyIterList (jGetD fs ("attribute_collection") (.jarr [])) = .ok colls ∧
      scanCollections colls = .ok scan ∧
      r = { product_id := variantPid pid fs
            group_id := jGetD fs ("group_id") .jnull
            name := jGetD fs ("name") .jnull
            brand := jGetD fs ("brand") .jnull
            category_l0 := cat0
            category_l1 := cat1
            unit := jGetD fs ("unit") .jnull
            price := jGetD fs ("price") .jnull
            original_price := jGetD fs ("mrp") .jnull
            inventory := jGetD fs ("inventory") .jnull
            product_url := url
            image_urls := imgs
            nutrition_info := .parsed (finalNutrition scan.nutrition)
            ingredients := scan.ingredients
            key_features := scan.key_features } := by
  simp only [buildVariant] at h
  split at h
  · exact absurd h (by simp)
  · cases hc0 : categoryName fs ("level0_category") with
    | error e =>
      rw [hc0] at h
      simp [Bind.bind, Except.bind] at h
    | ok cat0 =>
      rw [hc0] at h
      simp only [Bind.bind, Except.bind] at h
      cases hc1 : categoryName fs ("level1_category") with
      | error e =>
        rw [hc1] at h
        simp [Except.bind] at h
      | ok cat1 =>
        rw [hc1] at h
        simp only [Except.bind] at h
        cases hit : pyIterList (jGetD fs ("assets") (.jarr [])) with
        | error e =>
          rw [hit] at h
          simp [Except.bind] at h
        | ok items =>
          rw [hit] at h
          simp only [Except.bind] at h
          cases him : collectImages items with
          | error e =>
            rw [him] at h
            simp [Except.bind] at h
          | ok imgs =>
            rw [him] at h
            simp only [Except.bind] at h
            cases hco : pyIterList (jGetD fs ("attribute_collection") (.jarr [])) with
            | error e =>
              rw [hco] at h
              simp [Except.bind] at h
            | ok colls =>
              rw [hco] at h
              simp only [Except.bind] at h
              cases hsc : scanCollections colls with
              | error e =>
                rw [hsc] at h
                simp [Except.bind] at h
              | ok scan =>
                rw [hsc] at h
                simp only [Except.bind, pure, Except.pure,
                  Except.ok.injEq, Option.some.injEq] at h
                refine ⟨cat0, cat1, items, imgs, colls, scan,
                  ?_, ?_, ?_, ?_, ?_, ?_, h.symm⟩ <;>
                  first
                  | rfl
                  | assumption

theorem normalizeVariants_mem (pid url : String) :
    ∀ vs rs, normalizeVariants pid url vs = .ok rs →
      ∀ r ∈ rs, ∃ v ∈ vs, buildVariant pid url v = .ok (some r) := by
  intro vs
  induction vs with
  | nil =>
    intro rs h r hr
    injection h with h2
    rw [← h2] at hr
    simp at hr
  | cons v vs ih =>
    intro rs h r hr
    simp only [normalizeVariants] at h
    cases hb : buildVariant pid url v with
    | error e =>
      rw [hb] at h
      simp [Bind.bind, Except.bind] at h
    | ok ho =>
      rw [hb] at h
      cases hn : normalizeVariants pid url vs with
      | error e =>
        rw [hn] at h
        simp [Bind.bind, Except.bind] at h
      | ok rest =>
        rw [hn] at h
        cases ho with
        | none =>
          simp [Bind.bind, Except.bind, pure, Except.pure] at h
          rw [← h] at hr
          rcases ih rest hn r hr with ⟨v', hv', hb'⟩
          exact ⟨v', List.mem_cons_of_mem _ hv', hb'⟩
        | some r0 =>
          simp [Bind.bind, Except.bind, pure, Except.pure] at h
          rw [← h] at hr
          rcases List.mem_cons.mp hr with h1 | h2
          · exact ⟨v, List.mem_cons_self _ _, by rw [hb, h1]⟩
          · rcases ih rest hn r h2 with ⟨v', hv', hb'⟩
            exact ⟨v', List.mem_cons_of_mem _ hv', hb'⟩

theorem normalizeState_mem (pid url : String) (state : JValue)
    (r : ProductRecord) (hr : r ∈ normalizeState pid url state) :
    ∃ v, buildVariant pid url v = .ok (some r) := by
  unfold normalizeState at hr
  cases he : extractVariants state with
  | error e =>
    rw [he] at hr
    simp [Bind.bind, Except.bind] at hr
  | ok vs =>
    rw [he] at hr
    replace hr : r ∈ (match normalizeVariants pid url vs with
      | .ok rs => rs
      | .error _ => ([] : List ProductRecord)) := hr
    cases hn : normalizeVariants pid url vs with
    | error e =>
      rw [hn] at hr
      simp at hr
    | ok rs =>
      rw [hn] at hr
      replace hr : r ∈ rs := hr
      rcases normalizeVariants_mem pid url vs rs hn r hr with ⟨v, _, hb⟩
      exact ⟨v, hb⟩

theorem scrape_mem (pid : String) (page : FetchedPage) (r : ProductRecord)
    (hr : r ∈ scrape_detailed_product_data pid page) :
    ∃ v, buildVariant pid page.url v = .ok (some r) := by
  unfold scrape_detailed_product_data at hr
  split at hr
  · simp at hr
  · cases hs : findStateScript page.scripts with
    | none =>
      rw [hs] at hr
      simp at hr
    | some sc =>
      rw [hs] at hr
      replace hr : r ∈ (match jsonParseL (cleanJsonText sc) with
        | none => ([] : List ProductRecord)
        | some st => normalizeState pid page.url st) := hr
      cases hp : jsonParseL (cleanJsonText sc) with
      | none =>
        rw [hp] at hr
        simp at hr
      | some st =>
        rw [hp] at hr
        replace hr : r ∈ normalizeState pid page.url st := hr
        exact normalizeState_mem pid page.url st r hr

/-- C10: every record emitted by `scrape_detailed_product_data` carries
`nutrition_info` as a parsed mapping — the initial null is always
overwritten before the record is appended — whereas `ingredients` and
`key_features` remain null when the variant has no attribute
collections. -/
theorem nutrition_info_always_mapping :
    (∀ pid page r, r ∈ scrape_detailed_product_data pid page →
      ∃ d, r.nutrition_info = NutriField.parsed d) ∧
    (∀ pid url fs r,
      jGetD fs ("attribute_collection") (.jarr []) = .jarr [] →
      buildVariant pid url (.jobj fs) = .ok (some r) →
      r.ingredients = none ∧ r.key_features = none) := by
  constructor
  · intro pid page r hr
    rcases scrape_mem pid page r hr with ⟨v, hb⟩
    cases v with
    | jobj fs =>
      rcases buildVariant_inversion pid page.url fs r hb with
        ⟨c0, c1, it, im, co, sc, _, _, _, _, _, _, hrec⟩
      exact ⟨finalNutrition sc.nutrition, by rw [hrec]⟩
    | jnull => simp [buildVariant] at hb
    | jbool b => simp [buildVariant] at hb
    | jnum n => simp [buildVariant] at hb
    | jstr s => simp [buildVariant] at hb
    | jarr xs => simp [buildVariant] at hb
  · intro pid url fs r hattr hb
    rcases buildVariant_inversion pid url fs r hb with
      ⟨c0, c1, it, im, co, sc, h1, h2, h3, h4, h5, h6, hrec⟩
    rw [hattr] at h5
    have hco : co = [] := by
      simp [pyIterList] at h5
      exact h5
    rw [hco] at h6
    have hsc : sc = AttrScan.mk .isNull none none := by
      simp [scanCollections, List.foldlM, pure, Except.pure] at h6
      exact h6.symm
    rw [hrec, hsc]
    exact ⟨rfl, rfl⟩

/-- Witness for C10: the record of the one-variant demonstration page
carries a parsed (empty) nutrition mapping. -/
theorem nutrition_info_always_mapping_witness :
    ∃ d, demoRecord10.nutrition_info = NutriField.parsed d :=
  nutrition_info_always_mapping.1 ("9") demoPage10 demoRecord10
    (by rw [show scrape_detailed_product_data ("9") demoPage10 =
        [demoRecord10] from rfl]
        exact List.mem_singleton_self _)

end Cravehy
